import Mathlib

/-!
Verification development for the coordination layer of the
openafpm-cad-desktop-app repository: the request-collapsing (singleflight)
cache with progress broadcasting and the SSE gateway specified by
src/sse-endpoints-specification.md, and the frontend SSE connection manager
(src/frontend/sseUtils.js).

Conventions of the shallow embedding:

* Fingerprints (cache keys), results, error values, broadcaster ids and
  event ids are modelled as natural numbers.
* Python object identity (the `is` comparison on cache entries) is modelled
  by a numeric identity `eid` that is allocated freshly for every entry.
* Raising an exception out of a submit call is modelled by an explicit
  outcome value; `InterruptedError` is the `cancelled` outcome and a worker
  exception surfaced to a caller is the `workerError` outcome.
-/

/-! ## Query parameter coercion
(src/sse-endpoints-specification.md, lines 49-88) -/

/-- The coerced value of one query parameter token. A float value is carried
as the exact rational denoted by the accepted numeric literal. -/
inductive QueryValue where
  | bool (b : Bool)
  | int (n : Int)
  | float (q : ℚ)
  | str (s : String)
  deriving DecidableEq

/-- Numeric value of a digit string, most significant digit first. -/
def digitsVal (cs : List Char) : Nat :=
  cs.foldl (fun a c => a * 10 + (c.toNat - 48)) 0

/-- Model of Python `str.lower()` on ASCII letters. -/
def lowerChar (c : Char) : Char :=
  if 'A' ≤ c ∧ c ≤ 'Z' then Char.ofNat (c.toNat + 32) else c

/-- Lowercase a whole token. -/
def strLower (s : String) : String :=
  String.mk (s.toList.map lowerChar)

/-- Strip one optional leading sign, returning the sign as `1` or `-1`. -/
def splitSign (cs : List Char) : Int × List Char :=
  match cs with
  | c :: rest =>
    if c = '+' then (1, rest) else if c = '-' then (-1, rest) else (1, cs)
  | [] => (1, [])

/-- Model of Python `int(value)`: an optional sign followed by one or more
ASCII digits (the core integer literal grammar accepted by `int`). -/
def pyIntParse (s : String) : Option Int :=
  let p := splitSign s.toList
  if p.2 ≠ [] ∧ p.2.all Char.isDigit then some (p.1 * digitsVal p.2) else none

/-- Longest digit run at the front of a character list, and the rest. -/
def takeDigits (cs : List Char) : List Char × List Char :=
  (cs.takeWhile Char.isDigit, cs.dropWhile Char.isDigit)

/-- Scale a rational by a signed power of ten. -/
def scalePow10 (q : ℚ) (e : Int) : ℚ :=
  if 0 ≤ e then q * (10 : ℚ) ^ e.toNat else q / (10 : ℚ) ^ (-e).toNat

/-- Exponent part of a float literal: empty means exponent zero, otherwise
`e`/`E`, an optional sign, and one or more digits. -/
def pyFloatExp : List Char → Option Int
  | [] => some 0
  | 'e' :: rest =>
    let p := splitSign rest
    if p.2 ≠ [] ∧ p.2.all Char.isDigit then some (p.1 * digitsVal p.2) else none
  | 'E' :: rest =>
    let p := splitSign rest
    if p.2 ≠ [] ∧ p.2.all Char.isDigit then some (p.1 * digitsVal p.2) else none
  | _ => none

/-- Model of Python `float(value)` on the numeric literal grammar: an
optional sign, a mantissa with at least one digit (digits, digits `.` digits,
`.` digits, or digits `.`), and an optional exponent part. -/
def pyFloatParse (s : String) : Option ℚ :=
  let p := splitSign s.toList
  let ip := takeDigits p.2
  let rest :=
    match ip.2 with
    | '.' :: afterDot => (takeDigits afterDot, true)
    | other => ((([] : List Char), other), false)
  let fp := rest.1
  if (ip.1 ≠ [] ∨ fp.1 ≠ []) ∧ ip.1.all Char.isDigit ∧ fp.1.all Char.isDigit then
    match pyFloatExp fp.2 with
    | some e =>
      some (scalePow10
        ((p.1 : ℚ) * (((digitsVal ip.1 * 10 ^ fp.1.length + digitsVal fp.1 : Nat) : ℚ) /
          ((10 : ℚ) ^ fp.1.length))) e)
    | none => none
  else none

/-- Embeds `convert_query_param_type`
(src/sse-endpoints-specification.md, lines 67-87): the tokens whose
lowercasing is `true`/`false` become booleans; otherwise, when the token has
no `.`, `int(value)` is attempted; otherwise `float(value)` is attempted;
otherwise the string is kept. -/
def convert_query_param_type (value : String) : QueryValue :=
  if strLower value = "true" ∨ strLower value = "false" then
    .bool (strLower value = "true")
  else
    match (if ('.' ∈ value.toList) then none else pyIntParse value) with
    | some n => .int n
    | none =>
      match pyFloatParse value with
      | some q => .float q
      | none => .str value

/-- The coercion exactly as the specification words it (spec.md section 4.3):
`true`/`false` tokens become booleans; otherwise tokens parseable as integer
become that integer; otherwise tokens parseable as floating-point become that
float; otherwise the token stays a string. -/
def coerceSpec (value : String) : QueryValue :=
  if strLower value = "true" ∨ strLower value = "false" then
    .bool (strLower value = "true")
  else
    match pyIntParse value with
    | some n => .int n
    | none =>
      match pyFloatParse value with
      | some q => .float q
      | none => .str value

/-- One value of the nested parameter dictionary: a group of named coerced
values, or a top-level coerced value for a key without a dot. -/
inductive ParamEntry where
  | group (m : List (String × QueryValue))
  | flat (v : QueryValue)
  deriving DecidableEq

/-- Insertion-ordered association list standing for a Python dict. -/
abbrev ParamDict := List (String × ParamEntry)

/-- Python dict lookup `d[k]` as an option. -/
def lookupAssoc {α : Type} (m : List (String × α)) (k : String) : Option α :=
  (m.find? (fun p => p.1 == k)).map (fun p => p.2)

/-- Python dict assignment `d[k] = v`: replace in place when the key is
present, append otherwise. -/
def setAssoc {α : Type} (m : List (String × α)) (k : String) (v : α) :
    List (String × α) :=
  if m.any (fun p => p.1 == k) then
    m.map (fun p => if p.1 == k then (k, v) else p)
  else m ++ [(k, v)]

/-- Python `key.split(".", 1)`: the part before the first dot and the part
after it. -/
def splitFirstDot (k : String) : String × String :=
  let cs := k.toList
  (String.mk (cs.takeWhile (fun c => c ≠ '.')),
   String.mk ((cs.dropWhile (fun c => c ≠ '.')).drop 1))

/-- One iteration of the loop of `parse_prefixed_parameters`
(src/sse-endpoints-specification.md, lines 53-63). A `none` result stands for
the Python `TypeError` raised by `result[prefix][param_name] = v` when
`result[prefix]` is a previously stored non-dict value. -/
def parseStep (acc : Option ParamDict) (kv : String × String) : Option ParamDict :=
  match acc with
  | none => none
  | some result =>
    let converted := convert_query_param_type kv.2
    if ('.' ∈ kv.1.toList) then
      let pn := splitFirstDot kv.1
      let result1 :=
        if result.any (fun p => p.1 == pn.1) then result
        else result ++ [(pn.1, ParamEntry.group [])]
      match lookupAssoc result1 pn.1 with
      | some (ParamEntry.group m) =>
        some (setAssoc result1 pn.1 (ParamEntry.group (setAssoc m pn.2 converted)))
      | _ => none
    else
      some (setAssoc result kv.1 (ParamEntry.flat converted))

/-- Embeds `parse_prefixed_parameters`
(src/sse-endpoints-specification.md, lines 49-65): fold the query pairs into
the nested dictionary, converting every value. -/
def parse_prefixed_parameters (queryParams : List (String × String)) :
    Option ParamDict :=
  queryParams.foldl parseStep (some [])

/-- The coerced values stored under one dictionary entry. -/
def entryValues : ParamEntry → List QueryValue
  | .group m => m.map (fun p => p.2)
  | .flat v => [v]

/-- Every coerced value stored anywhere in the parsed dictionary. -/
def dictValues (d : ParamDict) : List QueryValue :=
  d.flatMap (fun p => entryValues p.2)

/-! ## ProgressBroadcaster
(src/sse-endpoints-specification.md, lines 399-415) -/

/-- Result of one `broadcast` call: the callback list after the loop, and the
invocations made (callback, progress, message), in order. -/
structure BroadcastOut (L : Type) where
  callbacks : List L
  calls : List (L × Nat × String)
  deriving DecidableEq

/-- The loop of `ProgressBroadcaster.broadcast`
(src/sse-endpoints-specification.md, lines 408-415): iterate over a snapshot
(`self.callbacks[:]`) of the callback list; invoke each callback with
`(progress, message)`; a callback that raises is removed from the live list
with Python `list.remove` (first occurrence), and the loop continues.
Listeners are values of an arbitrary type `L`; whether an invocation raises
is given by the behaviour map `raises`. -/
def broadcastGo {L : Type} [DecidableEq L] (raises : L → Bool)
    (progress : Nat) (message : String) :
    List L → List L → BroadcastOut L
  | [], cur => ⟨cur, []⟩
  | c :: snap, cur =>
    let cur1 := if raises c then cur.erase c else cur
    let rest := broadcastGo raises progress message snap cur1
    ⟨rest.callbacks, (c, progress, message) :: rest.calls⟩

/-- Embeds `ProgressBroadcaster.broadcast`: run the loop with the snapshot
equal to the current callback list. -/
def broadcast {L : Type} [DecidableEq L] (raises : L → Bool) (cbs : List L)
    (progress : Nat) (message : String) : BroadcastOut L :=
  broadcastGo raises progress message cbs cbs

/-! ## Cache entries, outcomes, and the waiting-thread check -/

/-- Status of the single cache entry
(src/sse-endpoints-specification.md, lines 421-426). -/
inductive EntryStatus where
  | loading
  | complete
  | error
  deriving DecidableEq

/-- The cache entry dictionary (src/sse-endpoints-specification.md,
lines 155-163 and 420-426). `eid` models Python object identity of the entry
and doubles as the id of the entry's one-shot `event`; `bid` is the identity
of its `progress_broadcaster`; `cancelRequested` is the state of its
`cancel_event`. -/
structure CacheEntry where
  eid : Nat
  key : Nat
  status : EntryStatus
  result : Option Nat
  err : Option Nat
  bid : Nat
  cancelRequested : Bool
  deriving DecidableEq

/-- Outcome of a submit call: a returned result (`None` possible, as in the
Python sketch), a raised `InterruptedError` (cancellation), or a raised
worker error carrying the recorded error value. -/
inductive SubmitOutcome where
  | result (r : Option Nat)
  | cancelled
  | workerError (e : Option Nat)
  deriving DecidableEq

/-- Embeds the waiting-thread wake-up check
(src/sse-endpoints-specification.md, lines 200-209): after `event.wait()`
returns and the lock is re-acquired, raise `InterruptedError` when the
current cache entry is not the entry that was waited for (Python `is`
comparison, modelled by `eid`); otherwise raise the recorded error when the
status is `error`; otherwise return the current entry's result. -/
def joinWake (current : Option CacheEntry) (waitingForEid : Nat) : SubmitOutcome :=
  match current with
  | none => .cancelled
  | some E =>
    if E.eid ≠ waitingForEid then .cancelled
    else if E.status = .error then .workerError E.err
    else .result E.result

/-! ## The predecessor worker's exception handler
(src/sse-endpoints-specification.md, lines 217-231) -/

/-- The two module-level cache globals `_current_cache_key` and
`_current_cache_entry`. -/
structure CacheGlobals where
  ckey : Option Nat
  centry : Option CacheEntry
  deriving DecidableEq

/-- Embeds the worker's `except Exception` handler
(src/sse-endpoints-specification.md, lines 217-231): under the lock, when
`_current_cache_key == cache_key` and `_current_cache_entry is not None`,
clear both globals if the exception is an `InterruptedError`, otherwise set
the current entry's status to `error` and record the exception; when the
guard fails, leave the cache alone. (The handler then sets the worker's own
event and re-raises; that part is modelled elsewhere.) -/
def workerExceptHandler (g : CacheGlobals) (cacheKey : Nat)
    (isInterrupted : Bool) (e : Nat) : CacheGlobals :=
  if g.ckey = some cacheKey ∧ g.centry ≠ none then
    if isInterrupted then ⟨none, none⟩
    else ⟨g.ckey, g.centry.map (fun E => { E with status := .error, err := some e })⟩
  else g

/-- The concrete same-key successor entry of the failing input for the
preemption frame property: identity 2, the same key 7 as the predecessor
entry (which had identity 1), still loading, with its own broadcaster 9. -/
def successorEntry : CacheEntry :=
  { eid := 2, key := 7, status := .loading, result := none, err := none,
    bid := 9, cancelRequested := true }

/-! ## The preempt-or-install path, fine grained
(src/sse-endpoints-specification.md, lines 139-167) -/

/-- Micro state for the straight-line preempt path: the lock, the two cache
globals, the set of cancel events that have been set, the set of done events
that have been set (both keyed by the owning entry's `eid`), and the fresh-id
counter. -/
structure MState where
  locked : Bool
  ckey : Option Nat
  centry : Option CacheEntry
  cancelsSet : List Nat
  eventsSet : List Nat
  nextId : Nat
  deriving DecidableEq

/-- One micro action of the preempt path. -/
inductive PreemptAct where
  | acquire
  | setCancel (eid : Nat)
  | installEntry (E : CacheEntry)
  | release
  | fireOldSignal (eid : Nat)
  | dispatchWorker (eid : Nat)
  deriving DecidableEq

/-- Effect of one micro action on the micro state. -/
def applyAct (s : MState) : PreemptAct → MState
  | .acquire => { s with locked := true }
  | .setCancel eid => { s with cancelsSet := s.cancelsSet ++ [eid] }
  | .installEntry E => { s with ckey := some E.key, centry := some E, nextId := s.nextId + 1 }
  | .release => { s with locked := false }
  | .fireOldSignal eid => { s with eventsSet := s.eventsSet ++ [eid] }
  | .dispatchWorker _ => s

/-- Effect of a list of micro actions, first action first. -/
def applyActs (s : MState) (acts : List PreemptAct) : MState :=
  acts.foldl applyAct s

/-- The entry created by the preempt path: fresh identity, fresh broadcaster,
fresh cancel event, fresh done event, status loading
(src/sse-endpoints-specification.md, lines 148-163). -/
def freshEntry (s : MState) (key : Nat) : CacheEntry :=
  { eid := s.nextId, key := key, status := .loading, result := none,
    err := none, bid := s.nextId, cancelRequested := false }

/-- Embeds the preempt-or-install path of the wrapper
(src/sse-endpoints-specification.md, lines 139-167) as the sequence of micro
actions it performs in program order: acquire the lock; if a current entry
exists, set its cancel event and remember its done event; create and install
the fresh entry; release the lock; only then, if an old done event was
remembered, set it; finally dispatch the worker. -/
def preemptActs (s : MState) (key : Nat) : List PreemptAct :=
  [PreemptAct.acquire] ++
  (match s.centry with
   | some Eold => [PreemptAct.setCancel Eold.eid]
   | none => []) ++
  [PreemptAct.installEntry (freshEntry s key), PreemptAct.release] ++
  (match s.centry with
   | some Eold => [PreemptAct.fireOldSignal Eold.eid]
   | none => []) ++
  [PreemptAct.dispatchWorker (freshEntry s key).eid]

/-! ## The request-collapsing cache as a transition system
(src/sse-endpoints-specification.md, lines 134-231 and 428-484) -/

/-- Phase of one submit call: before its first lock section; parked on the
done event of the entry with identity `eid`; executing the worker of the
entry with identity `eid`; or finished with an outcome. -/
inductive ThreadPhase where
  | ready
  | parked (eid : Nat)
  | working (eid : Nat)
  | finished (o : SubmitOutcome)
  deriving DecidableEq

/-- One submit call: its fingerprint key and its phase. -/
structure SubmitThread where
  key : Nat
  phase : ThreadPhase
  deriving DecidableEq

/-- One worker execution record: the identity of its entry, its key, and
whether it is still in flight. -/
structure WorkerRec where
  eid : Nat
  key : Nat
  running : Bool
  deriving DecidableEq

/-- Global state of the request-collapsing cache system: the two cache
globals, the set of done events already set (by owning entry identity), the
worker executions started so far, the submit calls, and the fresh-identity
counter. -/
structure CacheSys where
  ckey : Option Nat
  centry : Option CacheEntry
  fired : List Nat
  workers : List WorkerRec
  threads : List SubmitThread
  nextId : Nat
  deriving DecidableEq

/-- Set a one-shot event (idempotent). -/
def fireEvent (l : List Nat) (e : Nat) : List Nat :=
  if e ∈ l then l else l ++ [e]

/-- Mark the worker for entry `eid` as no longer in flight. -/
def finishWorker (ws : List WorkerRec) (eid : Nat) : List WorkerRec :=
  ws.map (fun w => if w.eid = eid then { w with running := false } else w)

/-- The entry installed on a cache miss or preemption, with fresh identity
and broadcaster (src/sse-endpoints-specification.md, lines 148-163 and
453-463). -/
def newEntry (n k : Nat) : CacheEntry :=
  { eid := n, key := k, status := .loading, result := none, err := none,
    bid := n, cancelRequested := false }

/-- Modelled from the spec: the same-key fast path when the current entry's
status is ERROR. The implementation that decides it, backend/request_collapse.py,
is not shipped under src/: the design document elides the refined same-key
branch (line 136, "...") and its base sketch omits an ERROR branch, while
spec.md section 4.2 states that an ERROR entry makes submit raise
WorkerError(E.error) and src/request_collapse_review.md line 27 records the
implemented flow "If error, re-raise cached error". The outcome carries the
error recorded on the entry. -/
def errorFastOutcome (E : CacheEntry) : SubmitOutcome :=
  .workerError E.err

/-- Modelled from the spec: before installing a replacement entry, submit
blocks until the old operation has finished cancelling.
backend/request_collapse.py is not shipped under src/;
src/request_collapse_review.md lines 30-35 and 56 record the implemented flow
("Cancel old operation", "Wait for old operation to finish cancelling",
"Must wait for old operation to cancel before starting new"). The install
step is therefore enabled only when no worker execution is in flight. -/
def installMayProceed (s : CacheSys) : Prop :=
  ∀ w ∈ s.workers, w.running = false

/-- Action labels for the transition system; the `Nat` is the index of the
acting submit call in `threads`. -/
inductive SubmitAct where
  | hitComplete (i : Nat)
  | hitError (i : Nat)
  | join (i : Nat)
  | preemptCancel (i : Nat)
  | install (i : Nat)
  | wake (i : Nat)
  | workComplete (i : Nat) (r : Nat)
  | workError (i : Nat) (e : Nat)
  | workCancelled (i : Nat)
  deriving DecidableEq

/-- Index of the acting submit call of an action. -/
def actThread : SubmitAct → Nat
  | .hitComplete i => i
  | .hitError i => i
  | .join i => i
  | .preemptCancel i => i
  | .install i => i
  | .wake i => i
  | .workComplete i _ => i
  | .workError i _ => i
  | .workCancelled i => i

/-- Small-step semantics of the request-collapsing cache. Every constructor
is one atomic lock section of src/sse-endpoints-specification.md:
`hitComplete` and `join` are the same-key fast paths (lines 434-447);
`hitError` is the same-key ERROR fast path (`errorFastOutcome`, modelled from
the spec as documented there); `preemptCancel` sets the old entry's cancel
event on a key change (lines 138-140); `install` creates and installs a
fresh entry, fires the remembered old done event after the swap, and
dispatches the worker (lines 141-172), gated by `installMayProceed`
(modelled from the spec as documented there); `wake` is the waiting-thread
check after `event.wait()` (lines 197-209, via `joinWake`); `workComplete`
and `workError` are the worker's completion and failure sections
(lines 471-483), which write through `_current_cache_entry` and set its
event; `workCancelled` is the `InterruptedError` handler (lines 174-182),
which clears the cache only when `_current_cache_key` still equals the
worker's key, and sets the worker's own event. -/
inductive SubmitStep : CacheSys → SubmitAct → CacheSys → Prop where
  | hitComplete (s : CacheSys) (i k : Nat) (E : CacheEntry)
      (ht : s.threads.get? i = some ⟨k, .ready⟩)
      (hk : s.ckey = some k) (he : s.centry = some E)
      (hst : E.status = .complete) :
      SubmitStep s (.hitComplete i)
        { s with threads := s.threads.set i ⟨k, .finished (.result E.result)⟩ }
  | hitError (s : CacheSys) (i k : Nat) (E : CacheEntry)
      (ht : s.threads.get? i = some ⟨k, .ready⟩)
      (hk : s.ckey = some k) (he : s.centry = some E)
      (hst : E.status = .error) :
      SubmitStep s (.hitError i)
        { s with threads := s.threads.set i ⟨k, .finished (errorFastOutcome E)⟩ }
  | join (s : CacheSys) (i k : Nat) (E : CacheEntry)
      (ht : s.threads.get? i = some ⟨k, .ready⟩)
      (hk : s.ckey = some k) (he : s.centry = some E)
      (hst : E.status = .loading) :
      SubmitStep s (.join i)
        { s with threads := s.threads.set i ⟨k, .parked E.eid⟩ }
  | preemptCancel (s : CacheSys) (i k : Nat) (E : CacheEntry)
      (ht : s.threads.get? i = some ⟨k, .ready⟩)
      (hk : s.ckey ≠ some k) (he : s.centry = some E)
      (hnc : E.cancelRequested = false) :
      SubmitStep s (.preemptCancel i)
        { s with centry := some { E with cancelRequested := true } }
  | install (s : CacheSys) (i k : Nat)
      (ht : s.threads.get? i = some ⟨k, .ready⟩)
      (hmiss : s.ckey ≠ some k ∨ s.centry = none)
      (hwait : installMayProceed s) :
      SubmitStep s (.install i)
        { ckey := some k
          centry := some (newEntry s.nextId k)
          fired := match s.centry with
                   | some Eold => fireEvent s.fired Eold.eid
                   | none => s.fired
          workers := s.workers ++ [⟨s.nextId, k, true⟩]
          threads := s.threads.set i ⟨k, .working s.nextId⟩
          nextId := s.nextId + 1 }
  | wake (s : CacheSys) (i k eid : Nat)
      (ht : s.threads.get? i = some ⟨k, .parked eid⟩)
      (hf : eid ∈ s.fired) :
      SubmitStep s (.wake i)
        { s with threads := s.threads.set i ⟨k, .finished (joinWake s.centry eid)⟩ }
  | workComplete (s : CacheSys) (i k eid r : Nat) (E : CacheEntry)
      (ht : s.threads.get? i = some ⟨k, .working eid⟩)
      (he : s.centry = some E) :
      SubmitStep s (.workComplete i r)
        { s with centry := some { E with status := .complete, result := some r }
                 fired := fireEvent s.fired E.eid
                 workers := finishWorker s.workers eid
                 threads := s.threads.set i ⟨k, .finished (.result (some r))⟩ }
  | workError (s : CacheSys) (i k eid e : Nat) (E : CacheEntry)
      (ht : s.threads.get? i = some ⟨k, .working eid⟩)
      (he : s.centry = some E) :
      SubmitStep s (.workError i e)
        { s with centry := some { E with status := .error, err := some e }
                 fired := fireEvent s.fired E.eid
                 workers := finishWorker s.workers eid
                 threads := s.threads.set i ⟨k, .finished (.workerError (some e))⟩ }
  | workCancelled (s : CacheSys) (i k eid : Nat) (E : CacheEntry)
      (ht : s.threads.get? i = some ⟨k, .working eid⟩)
      (he : s.centry = some E) (hcr : E.cancelRequested = true) :
      SubmitStep s (.workCancelled i)
        { s with ckey := if s.ckey = some k then none else s.ckey
                 centry := if s.ckey = some k then none else s.centry
                 fired := fireEvent s.fired eid
                 workers := finishWorker s.workers eid
                 threads := s.threads.set i ⟨k, .finished .cancelled⟩ }

/-- Initial states: empty cache, no events set, no workers, every submit
call at its start. -/
def CacheInit (s : CacheSys) : Prop :=
  s.ckey = none ∧ s.centry = none ∧ s.fired = [] ∧ s.workers = [] ∧
  s.nextId = 0 ∧ ∀ t ∈ s.threads, t.phase = .ready

/-- Reachability of a system state from an initial state. -/
inductive CacheReachable : CacheSys → Prop where
  | init (s : CacheSys) : CacheInit s → CacheReachable s
  | step (s : CacheSys) (a : SubmitAct) (s2 : CacheSys) :
      CacheReachable s → SubmitStep s a s2 → CacheReachable s2

/-- Number of entries held by the cache (the code has a single global
entry slot). -/
def entryCount (s : CacheSys) : Nat :=
  match s.centry with
  | some _ => 1
  | none => 0

/-- Number of worker executions currently in flight. -/
def runningCount (s : CacheSys) : Nat :=
  (s.workers.filter (fun w => w.running)).length

/-! ## The SSE event streams of the gateway
(src/sse-endpoints-specification.md, lines 239-276 and 531-564) -/

/-- Payload of one progress record. -/
structure ProgressData where
  progress : Nat
  message : String
  deriving DecidableEq

/-- One SSE record written by the gateway. -/
inductive SSEEvent where
  | progress (p : ProgressData)
  | complete (r : Nat)
  | cancelled
  | error (msg : String)
  deriving DecidableEq

/-- Whether an SSE record is a terminal event. -/
def isTerminalEvent : SSEEvent → Bool
  | .progress _ => false
  | _ => true

/-- What one iteration of the `while not task.done()` loop of `event_stream`
observes: the client has disconnected; the progress queue yields an item; or
the queue is empty (the iteration sleeps). -/
inductive IterObs where
  | disconnected
  | queueItem (p : ProgressData)
  | queueEmpty
  deriving DecidableEq

/-- How the background task ends: with a value (`None` meaning the operation
was cancelled), or by raising. -/
inductive TaskOutcome where
  | value (r : Option Nat)
  | raised
  deriving DecidableEq

/-- Embeds `event_stream` (src/sse-endpoints-specification.md,
lines 239-276). The loop is driven by a schedule of per-iteration
observations; the loop exits when the schedule is exhausted (the task is
done). A `disconnected` observation makes the generator set the flag, cancel
the task and return, emitting nothing further. After the loop,
`result = await task` yields `complete` when the result is not `None` and
`cancelled` when it is; when awaiting the task raises, no event is yielded
(only `asyncio.CancelledError` is caught, and that handler just logs). -/
def event_stream : List IterObs → TaskOutcome → List SSEEvent
  | [], .value (some r) => [.complete r]
  | [], .value none => [.cancelled]
  | [], .raised => []
  | .disconnected :: _, _ => []
  | .queueItem p :: rest, t => .progress p :: event_stream rest t
  | .queueEmpty :: rest, t => event_stream rest t

/-- What one iteration of the `visualize_stream` loop observes: a progress
item, or an `asyncio.TimeoutError` (the iteration continues). -/
inductive VIterObs where
  | queueItem (p : ProgressData)
  | timeout
  deriving DecidableEq

/-- Embeds the `event_stream` generator inside `visualize_stream`
(src/sse-endpoints-specification.md, lines 531-563): drain progress items
until the task is done (schedule exhausted), then yield `complete` with the
awaited result; any exception raised inside the `try` block, in particular by
awaiting the task, is caught and yielded as a single `error` event. -/
def visualize_stream : List VIterObs → Except String Nat → List SSEEvent
  | [], .ok r => [.complete r]
  | [], .error e => [.error e]
  | .queueItem p :: rest, t => .progress p :: visualize_stream rest t
  | .timeout :: rest, t => visualize_stream rest t

/-- The terminal record `event_stream` writes for a task value. -/
def terminalFor : Option Nat → SSEEvent
  | some r => .complete r
  | none => .cancelled

/-- The terminal record `visualize_stream` writes for a task outcome. -/
def vTerminalFor : Except String Nat → SSEEvent
  | .ok r => .complete r
  | .error e => .error e

/-- The progress records a schedule delivers, in order. -/
def progressOf (sched : List IterObs) : List SSEEvent :=
  sched.filterMap (fun o =>
    match o with
    | .queueItem p => some (SSEEvent.progress p)
    | _ => none)

/-- The progress records a `visualize_stream` schedule delivers, in order. -/
def vProgressOf (sched : List VIterObs) : List SSEEvent :=
  sched.filterMap (fun o =>
    match o with
    | .queueItem p => some (SSEEvent.progress p)
    | _ => none)

/-! ## The per-observer progress queue
(src/sse-endpoints-specification.md, lines 239-249) -/

/-- Embeds `queue.Queue(maxsize).put(item, block=False)`: append the item
when the queue is not full, raise `queue.Full` (the `none` result) otherwise;
`maxsize = 0` is the unbounded default of `queue.Queue()` as constructed at
line 240. -/
def putNowait (maxsize : Nat) (q : List ProgressData) (item : ProgressData) :
    Option (List ProgressData) :=
  if maxsize = 0 ∨ q.length < maxsize then some (q ++ [item]) else none

/-- Embeds `progress_callback` (src/sse-endpoints-specification.md,
lines 243-249): return at once when the client has disconnected; otherwise
put the record with `block=False`, and on `queue.Full` do nothing
(`except queue.Full: pass`). -/
def progress_callback (clientDisconnected : Bool) (maxsize : Nat)
    (q : List ProgressData) (message : String) (progress : Nat) :
    List ProgressData :=
  if clientDisconnected then q
  else
    match putNowait maxsize q ⟨progress, message⟩ with
    | some q2 => q2
    | none => q

/-! ## The frontend SSE connection manager
(src/frontend/sseUtils.js) -/

/-- State of the `SSEManager`: the private per-endpoint registry
(`#eventSourceByEndpoint`), where an absent key models an undefined slot and
`some none` models a slot set to `null`; and the ids of the `EventSource`
objects on which `close()` has been invoked. -/
structure SSESys where
  slots : List (String × Option Nat)
  closedIds : List Nat
  deriving DecidableEq

/-- Embeds `SSEManager.closeEventSource` (src/frontend/sseUtils.js,
lines 11-16): when the registry slot holds an `EventSource` (a truthy
value), call its `close()` and set the slot to `null`; an absent or `null`
slot is left untouched. -/
def closeEventSource (s : SSESys) (endp : String) : SSESys :=
  match lookupAssoc s.slots endp with
  | some (some id) =>
    { slots := setAssoc s.slots endp none, closedIds := s.closedIds ++ [id] }
  | _ => s

/-- Which user callbacks the caller of `startSSE` supplied. -/
structure SSECallbacks where
  onComplete : Bool
  onCancelled : Bool
  onError : Bool
  deriving DecidableEq

/-- One user-callback invocation made by a handler. -/
inductive CallbackCall where
  | completeCall (r : Nat)
  | cancelledCall
  | errorCall (e : Nat)
  deriving DecidableEq

/-- Embeds the `complete` listener registered by `SSEManager.startSSE`
(src/frontend/sseUtils.js, lines 56-66): try to parse the event data
(`parsed = none` models a `JSON.parse` failure, which only warns) and invoke
`onComplete` when present; then, outside the try block, always
`closeEventSource`. -/
def handleComplete (s : SSESys) (endp : String) (parsed : Option Nat)
    (cbs : SSECallbacks) : SSESys × List CallbackCall :=
  (closeEventSource s endp,
   match parsed, cbs.onComplete with
   | some r, true => [CallbackCall.completeCall r]
   | _, _ => [])

/-- Embeds the `cancelled` listener registered by `SSEManager.startSSE`
(src/frontend/sseUtils.js, lines 68-74): log, invoke `onCancelled` when
present, and always `closeEventSource`. -/
def handleCancelled (s : SSESys) (endp : String) (cbs : SSECallbacks) :
    SSESys × List CallbackCall :=
  (closeEventSource s endp,
   if cbs.onCancelled then [CallbackCall.cancelledCall] else [])

/-- Embeds the `error` listener registered by `SSEManager.startSSE`
(src/frontend/sseUtils.js, lines 76-91): when the event carries data, try to
parse it (`some none` models a parse failure, which only warns) and invoke
`onError` when present; without data, only log; in every case, finally
`closeEventSource`. -/
def handleError (s : SSESys) (endp : String) (dat : Option (Option Nat))
    (cbs : SSECallbacks) : SSESys × List CallbackCall :=
  (closeEventSource s endp,
   match dat, cbs.onError with
   | some (some e), true => [CallbackCall.errorCall e]
   | _, _ => [])




/-- The initial state of the C3 witness run: two submit calls for key 5,
empty cache. -/
def sysBeforeInstall : CacheSys :=
  { ckey := none, centry := none, fired := [], workers := [],
    threads := [⟨5, .ready⟩, ⟨5, .ready⟩], nextId := 0 }

/-- The state after the first submit call installed the entry for key 5 and
started its worker, with the second call still at its start. -/
def sysAfterInstall : CacheSys :=
  { ckey := some 5, centry := some (newEntry 0 5), fired := [],
    workers := [⟨0, 5, true⟩],
    threads := [⟨5, .working 0⟩, ⟨5, .ready⟩], nextId := 1 }

/-- State of the C5 witness run just before the worker for key 7 raises. -/
def sysWorkerRaises : CacheSys :=
  { ckey := some 7, centry := some (newEntry 0 7), fired := [],
    workers := [⟨0, 7, true⟩], threads := [⟨7, .working 0⟩], nextId := 1 }

/-- State after the worker raised the error 5. -/
def sysWorkerRaised : CacheSys :=
  { ckey := some 7, centry := some ⟨0, 7, .error, none, some 5, 0, false⟩,
    fired := [0], workers := [⟨0, 7, false⟩],
    threads := [⟨7, .finished (.workerError (some 5))⟩], nextId := 1 }

/-- The errored entry of the C5 witness run. -/
def errEntry : CacheEntry := ⟨0, 7, .error, none, some 5, 0, false⟩

/-- A state holding the errored entry for key 7, with a parked waiter
(thread 1) and a later same-key submit call (thread 2). -/
def sysErrCurrent : CacheSys :=
  { ckey := some 7, centry := some errEntry, fired := [0],
    workers := [⟨0, 7, false⟩],
    threads := [⟨7, .finished (.workerError (some 5))⟩, ⟨7, .parked 0⟩,
      ⟨7, .ready⟩], nextId := 1 }

/-- The state after the later same-key submit call took the error fast
path. -/
def sysErrHitTarget : CacheSys :=
  { sysErrCurrent with
    threads := sysErrCurrent.threads.set 2
      ⟨7, .finished (errorFastOutcome errEntry)⟩ }

/-- The state after the parked waiter woke on the errored entry. -/
def sysErrWakeTarget : CacheSys :=
  { sysErrCurrent with
    threads := sysErrCurrent.threads.set 1
      ⟨7, .finished (joinWake sysErrCurrent.centry 0)⟩ }

/-! ## Helper lemmas -/

/-- Looking up the key just assigned by `setAssoc` yields the new value. -/
theorem lookupAssoc_setAssoc_self {α : Type} (m : List (String × α))
    (k : String) (v : α) : lookupAssoc (setAssoc m k v) k = some v := by
  unfold setAssoc
  by_cases h : m.any (fun p => p.1 == k)
  · simp only [h, if_true]
    induction m with
    | nil => simp at h
    | cons p rest ih =>
      by_cases hp : p.1 == k
      · simp [lookupAssoc, List.find?, hp]
      · have hrest : rest.any (fun q => q.1 == k) = true := by
          simp [List.any_cons, hp] at h
          simpa using h
        have := ih hrest
        simpa [lookupAssoc, List.find?, hp] using this
  · simp only [h, if_false]
    have hnone : (m.find? (fun p => p.1 == k)) = none := by
      rw [List.find?_eq_none]
      intro x hx
      simp only [Bool.not_eq_true]
      by_contra hx2
      simp only [Bool.not_eq_false] at hx2
      exact h (List.any_eq_true.mpr ⟨x, hx, hx2⟩)
    simp [lookupAssoc, List.find?_append, hnone, List.find?]

/-- A schedule without a disconnect observation drains its progress items and
then runs the post-loop epilogue. -/
theorem event_stream_no_disconnect (sched : List IterObs) (t : TaskOutcome)
    (h : IterObs.disconnected ∉ sched) :
    event_stream sched t = progressOf sched ++ event_stream [] t := by
  induction sched with
  | nil => simp [progressOf]
  | cons o rest ih =>
    have hrest : IterObs.disconnected ∉ rest := fun hm =>
      h (List.mem_cons_of_mem _ hm)
    cases o with
    | disconnected => exact absurd (List.mem_cons_self _ _) h
    | queueItem p =>
      simp [event_stream, progressOf, List.filterMap_cons, ih hrest]
    | queueEmpty =>
      simpa [event_stream, progressOf, List.filterMap_cons] using ih hrest

/-- Every record a schedule delivers is a progress record. -/
theorem progressOf_not_terminal (sched : List IterObs) :
    ∀ ev ∈ progressOf sched, isTerminalEvent ev = false := by
  intro ev hev
  simp only [progressOf, List.mem_filterMap] at hev
  obtain ⟨o, _, ho⟩ := hev
  cases o with
  | disconnected => simp at ho
  | queueItem p =>
    simp only [Option.some.injEq] at ho
    rw [← ho]
    rfl
  | queueEmpty => simp at ho

/-- A `visualize_stream` schedule drains its progress items and then runs the
post-loop epilogue. -/
theorem visualize_stream_split (sched : List VIterObs) (t : Except String Nat) :
    visualize_stream sched t = vProgressOf sched ++ [vTerminalFor t] := by
  induction sched with
  | nil => cases t <;> simp [visualize_stream, vProgressOf, vTerminalFor]
  | cons o rest ih =>
    cases o with
    | queueItem p =>
      simp [visualize_stream, vProgressOf, List.filterMap_cons, ih]
    | timeout =>
      simpa [visualize_stream, vProgressOf, List.filterMap_cons] using ih

/-- Every record a `visualize_stream` schedule delivers is a progress
record. -/
theorem vProgressOf_not_terminal (sched : List VIterObs) :
    ∀ ev ∈ vProgressOf sched, isTerminalEvent ev = false := by
  intro ev hev
  simp only [vProgressOf, List.mem_filterMap] at hev
  obtain ⟨o, _, ho⟩ := hev
  cases o with
  | queueItem p =>
    simp only [Option.some.injEq] at ho
    rw [← ho]
    rfl
  | timeout => simp at ho

/-! ## C1 -/

/-- C1: the claim asserts that after the current cache entry has been
replaced by a successor, a failure of the predecessor's worker leaves the
successor entry unchanged, including when the successor was created later
for the same key. This theorem evaluates the embedded exception handler
(src/sse-endpoints-specification.md, lines 217-231) at the failing input:
the predecessor (entry identity 1, key 7) has been replaced and the current
entry is `successorEntry` (identity 2, the same key 7, still loading); the
handler's guard compares only cache keys, so it overwrites the successor's
status and error on a generic exception and clears the cache entirely on an
InterruptedError, refuting the claim. -/
theorem preempted_failure_clobbers_same_key_successor :
    successorEntry.eid ≠ 1 ∧
    successorEntry.key = 7 ∧
    successorEntry.status = .loading ∧
    (workerExceptHandler ⟨some 7, some successorEntry⟩ 7 false 5).centry =
      some { successorEntry with status := .error, err := some 5 } ∧
    (workerExceptHandler ⟨some 7, some successorEntry⟩ 7 false 5).centry ≠
      some successorEntry ∧
    workerExceptHandler ⟨some 7, some successorEntry⟩ 7 true 5 =
      ⟨none, none⟩ := by
  decide

/-! ## C2 -/

/-- C2: a submission that joined a loading entry and parked on its done
event raises Cancelled when, upon waking, the current cache entry is no
longer the entry it joined (its identity changed), and the outcome carries
neither the successor's result nor its error. -/
theorem wake_after_replacement_raises_cancelled
    (current : Option CacheEntry) (waitingForEid : Nat)
    (hrepl : ∀ E, current = some E → E.eid ≠ waitingForEid) :
    joinWake current waitingForEid = .cancelled ∧
    (∀ r, joinWake current waitingForEid ≠ .result r) ∧
    (∀ e, joinWake current waitingForEid ≠ .workerError e) := by
  have h : joinWake current waitingForEid = .cancelled := by
    cases current with
    | none => rfl
    | some E => simp [joinWake, hrepl E rfl]
  refine ⟨h, fun r hr => ?_, fun e he => ?_⟩
  · rw [h] at hr
    exact SubmitOutcome.noConfusion hr
  · rw [h] at he
    exact SubmitOutcome.noConfusion he

/-- Witness for C2 at a concrete input: the waiter parked on entry identity
1 wakes to find the successor entry of identity 2. -/
theorem wake_after_replacement_raises_cancelled_witness :
    joinWake (some ⟨2, 7, .loading, none, none, 9, true⟩) 1 = .cancelled :=
  (wake_after_replacement_raises_cancelled
    (some ⟨2, 7, .loading, none, none, 9, true⟩) 1
    (fun E hE => by cases hE; decide)).1

/-! ## C6 -/

/-- C6 counterexample: an `event_stream` request whose client disconnects on
the first loop iteration emits no terminal event at all (the generator
cancels the task and returns), so the claim that every request emits exactly
one terminal event fails at this input. -/
theorem event_stream_disconnect_no_terminal :
    event_stream [IterObs.disconnected] (.value (some 3)) = [] ∧
    ((event_stream [IterObs.disconnected] (.value (some 3))).filter
      isTerminalEvent).length = 0 := by
  decide

/-- C6 (amended): every `event_stream` request in which the client does not
disconnect and whose task completes with a value emits exactly one terminal
event (`complete` for a non-None result, `cancelled` for None) after zero or
more progress events, as the last record before the stream closes; every
`visualize_stream` request emits exactly one terminal event (`complete` on
success, `error` when awaiting the task raises) after zero or more progress
events, as the last record. On disconnect, `event_stream` returns with no
terminal event. -/
theorem stream_one_terminal_without_disconnect :
    (∀ (sched : List IterObs) (r : Option Nat),
      IterObs.disconnected ∉ sched →
      event_stream sched (.value r) = progressOf sched ++ [terminalFor r] ∧
      (∀ ev ∈ progressOf sched, isTerminalEvent ev = false) ∧
      isTerminalEvent (terminalFor r) = true) ∧
    (∀ (sched : List VIterObs) (t : Except String Nat),
      visualize_stream sched t = vProgressOf sched ++ [vTerminalFor t] ∧
      (∀ ev ∈ vProgressOf sched, isTerminalEvent ev = false) ∧
      isTerminalEvent (vTerminalFor t) = true) := by
  constructor
  · intro sched r h
    refine ⟨?_, progressOf_not_terminal sched, ?_⟩
    · rw [event_stream_no_disconnect sched _ h]
      cases r <;> rfl
    · cases r <;> rfl
  · intro sched t
    refine ⟨visualize_stream_split sched t, vProgressOf_not_terminal sched, ?_⟩
    cases t <;> rfl

/-- Witness for C6 (amended) at a concrete input: one progress record, then
the single `complete` record. -/
theorem stream_one_terminal_witness :
    event_stream [IterObs.queueItem ⟨30, "load"⟩] (.value (some 4)) =
      [.progress ⟨30, "load"⟩, .complete 4] := by
  have h := (stream_one_terminal_without_disconnect).1
    [IterObs.queueItem ⟨30, "load"⟩] (some 4) (by decide)
  simpa [progressOf, terminalFor] using h.1

/-! ## C7 -/

/-- C7 counterexample: with the queue at its capacity (capacity 2, already
holding the records for progress 1 and 2), the arriving broadcast for
progress 3 is discarded and the queue is left unchanged; the oldest record
is not dropped and the newest is not enqueued, so drop-oldest fails at this
input. -/
theorem progress_queue_full_drops_newest :
    progress_callback false 2 [⟨1, "a"⟩, ⟨2, "b"⟩] "c" 3 =
      [⟨1, "a"⟩, ⟨2, "b"⟩] ∧
    progress_callback false 2 [⟨1, "a"⟩, ⟨2, "b"⟩] "c" 3 ≠
      [⟨2, "b"⟩, ⟨3, "c"⟩] := by
  decide

/-- C7 (amended): when a progress broadcast arrives while the bounded queue
already holds `cap` items, the incoming (newest) record is discarded and the
queue is unchanged (the code also constructs the queue unbounded, making
this the `maxsize > 0` behaviour of its `except queue.Full: pass` handler);
when the queue is not full the record is appended at the back; the producer
never blocks and never loses already queued records (its result is always
the old queue or the old queue with the new record appended); and terminal
outcomes are not routed through the progress queue: the terminal records of
`event_stream` are the same under any two disconnect-free delivery
schedules. -/
theorem progress_callback_drop_newest_never_blocks :
    (∀ (cap : Nat) (q : List ProgressData) (m : String) (p : Nat),
      cap ≠ 0 → ¬ q.length < cap →
      progress_callback false cap q m p = q) ∧
    (∀ (cap : Nat) (q : List ProgressData) (m : String) (p : Nat),
      (cap = 0 ∨ q.length < cap) →
      progress_callback false cap q m p = q ++ [⟨p, m⟩]) ∧
    (∀ (d : Bool) (cap : Nat) (q : List ProgressData) (m : String) (p : Nat),
      progress_callback d cap q m p = q ∨
      progress_callback d cap q m p = q ++ [⟨p, m⟩]) ∧
    (∀ (sched sched2 : List IterObs) (t : TaskOutcome),
      IterObs.disconnected ∉ sched → IterObs.disconnected ∉ sched2 →
      (event_stream sched t).filter isTerminalEvent =
        (event_stream sched2 t).filter isTerminalEvent) := by
  refine ⟨?_, ?_, ?_, ?_⟩
  · intro cap q m p hc hlen
    simp [progress_callback, putNowait, hc, hlen]
  · intro cap q m p h
    simp only [progress_callback, putNowait, if_neg (Bool.false_ne_true ∘ absurd rfl)]
    simp [h]
  · intro d cap q m p
    by_cases hd : d
    · subst hd
      left
      rfl
    · simp only [Bool.not_eq_true] at hd
      subst hd
      by_cases h : cap = 0 ∨ q.length < cap
      · right
        simp [progress_callback, putNowait, h]
      · left
        simp only [progress_callback, putNowait, if_neg h]
        rfl
  · intro sched sched2 t h h2
    have e1 := event_stream_no_disconnect sched t h
    have e2 := event_stream_no_disconnect sched2 t h2
    rw [e1, e2, List.filter_append, List.filter_append]
    have p1 : (progressOf sched).filter isTerminalEvent = [] :=
      List.filter_eq_nil_iff.mpr (by
        intro ev hev
        simp [progressOf_not_terminal sched ev hev])
    have p2 : (progressOf sched2).filter isTerminalEvent = [] :=
      List.filter_eq_nil_iff.mpr (by
        intro ev hev
        simp [progressOf_not_terminal sched2 ev hev])
    rw [p1, p2]

/-- Witness for C7 (amended) at concrete inputs: the full queue is left
unchanged and the non-full queue gets the record appended. -/
theorem progress_callback_drop_newest_witness :
    progress_callback false 1 [⟨1, "a"⟩] "c" 3 = [⟨1, "a"⟩] ∧
    progress_callback false 3 [⟨1, "a"⟩] "c" 3 = [⟨1, "a"⟩, ⟨3, "c"⟩] :=
  ⟨(progress_callback_drop_newest_never_blocks).1 1 [⟨1, "a"⟩] "c" 3
      (by decide) (by decide),
   (progress_callback_drop_newest_never_blocks).2.1 3 [⟨1, "a"⟩] "c" 3
      (Or.inr (by decide))⟩

/-! ## C10 -/

/-- C10: every terminal SSE event received by `SSEManager.startSSE` closes
the `EventSource` registered for that endpoint and clears its registry slot
(sets it to null), regardless of whether the payload parses as JSON or the
user callback is present; and closing an endpoint whose slot is absent or
already null is a no-op. -/
theorem sse_terminal_close_and_clear
    (s : SSESys) (endp : String) (parsed : Option Nat)
    (dat : Option (Option Nat)) (cbs : SSECallbacks) (esId : Nat)
    (hopen : lookupAssoc s.slots endp = some (some esId)) :
    (handleComplete s endp parsed cbs).1 = closeEventSource s endp ∧
    (handleCancelled s endp cbs).1 = closeEventSource s endp ∧
    (handleError s endp dat cbs).1 = closeEventSource s endp ∧
    lookupAssoc (closeEventSource s endp).slots endp = some none ∧
    esId ∈ (closeEventSource s endp).closedIds ∧
    (∀ (s2 : SSESys) (e2 : String),
      (lookupAssoc s2.slots e2 = none ∨ lookupAssoc s2.slots e2 = some none) →
      closeEventSource s2 e2 = s2) := by
  refine ⟨rfl, rfl, rfl, ?_, ?_, ?_⟩
  · simp only [closeEventSource, hopen]
    exact lookupAssoc_setAssoc_self s.slots endp none
  · simp [closeEventSource, hopen]
  · intro s2 e2 h2
    cases h2 with
    | inl h => simp [closeEventSource, h]
    | inr h => simp [closeEventSource, h]

/-- Witness for C10 at a concrete input: closing endpoint `a` whose slot
holds the EventSource with id 3, and the no-op close of a null slot. -/
theorem sse_terminal_close_and_clear_witness :
    lookupAssoc (closeEventSource ⟨[("a", some 3)], []⟩ "a").slots "a" =
      some none ∧
    3 ∈ (closeEventSource ⟨[("a", some 3)], []⟩ "a").closedIds ∧
    closeEventSource ⟨[("b", none)], []⟩ "b" = ⟨[("b", none)], []⟩ := by
  have h := sse_terminal_close_and_clear ⟨[("a", some 3)], []⟩ "a" none none
    ⟨false, false, false⟩ 3 (by decide)
  exact ⟨h.2.2.2.1, h.2.2.2.2.1, h.2.2.2.2.2 ⟨[("b", none)], []⟩ "b"
    (Or.inr (by decide))⟩

/-! ## C8 -/

/-- The broadcast loop invokes exactly the snapshot, in order, with the
given pair, regardless of removals. -/
theorem broadcastGo_calls {L : Type} [DecidableEq L] (raises : L → Bool)
    (progress : Nat) (message : String) :
    ∀ (snap cur : List L),
      (broadcastGo raises progress message snap cur).calls =
        snap.map (fun c => (c, progress, message)) := by
  intro snap
  induction snap with
  | nil => intro cur; rfl
  | cons c rest ih => intro cur; simp [broadcastGo, ih]

/-- After the broadcast loop, a duplicate-free callback list keeps exactly
the callbacks of the snapshot that did not raise (and everything outside the
snapshot). -/
theorem broadcastGo_callbacks {L : Type} [DecidableEq L] (raises : L → Bool)
    (progress : Nat) (message : String) :
    ∀ (snap cur : List L), cur.Nodup →
      (broadcastGo raises progress message snap cur).callbacks =
        cur.filter (fun c => !(snap.contains c && raises c)) := by
  intro snap
  induction snap with
  | nil =>
    intro cur h
    simp [broadcastGo]
  | cons c rest ih =>
    intro cur h
    simp only [broadcastGo]
    by_cases hr : raises c
    · rw [if_pos hr]
      rw [ih (cur.erase c) (h.erase c)]
      rw [h.erase_eq_filter c]
      rw [List.filter_filter]
      apply List.filter_congr
      intro d hd
      by_cases hdc : d = c
      · subst hdc
        simp [hr]
      · simp [hdc, List.contains_cons, Ne.symm hdc]
    · rw [if_neg hr]
      rw [ih cur h]
      apply List.filter_congr
      intro d hd
      by_cases hdc : d = c
      · subst hdc
        simp [hr, List.contains_cons]
      · simp [hdc, List.contains_cons, Ne.symm hdc]

/-- C8: a broadcast over a duplicate-free set of currently registered
listeners invokes every listener registered at the start of the broadcast
with the given pair, in registration order; exactly the listeners that
raised are removed, so a raising listener does not abort the broadcast and
every other listener is still invoked and retained. -/
theorem broadcast_isolates_raising_listener {L : Type} [DecidableEq L]
    (raises : L → Bool) (cbs : List L) (progress : Nat) (message : String)
    (hnd : cbs.Nodup) :
    (broadcast raises cbs progress message).calls =
      cbs.map (fun c => (c, progress, message)) ∧
    (broadcast raises cbs progress message).callbacks =
      cbs.filter (fun c => !raises c) ∧
    (∀ c ∈ cbs, raises c = true →
      c ∉ (broadcast raises cbs progress message).callbacks ∧
      (c, progress, message) ∈ (broadcast raises cbs progress message).calls) ∧
    (∀ c ∈ cbs, raises c = false →
      c ∈ (broadcast raises cbs progress message).callbacks ∧
      (c, progress, message) ∈ (broadcast raises cbs progress message).calls) := by
  have hcalls := broadcastGo_calls raises progress message cbs cbs
  have hcbs : (broadcast raises cbs progress message).callbacks =
      cbs.filter (fun c => !raises c) := by
    rw [broadcast, broadcastGo_callbacks raises progress message cbs cbs hnd]
    apply List.filter_congr
    intro d hd
    have hc : cbs.contains d = true := List.elem_iff.mpr hd
    rw [hc, Bool.true_and]
  refine ⟨hcalls, hcbs, ?_, ?_⟩
  · intro c hc hr
    constructor
    · rw [hcbs]
      intro hmem
      have := (List.mem_filter.mp hmem).2
      simp [hr] at this
    · rw [broadcast, hcalls]
      exact List.mem_map.mpr ⟨c, hc, rfl⟩
  · intro c hc hr
    constructor
    · rw [hcbs]
      exact List.mem_filter.mpr ⟨hc, by simp [hr]⟩
    · rw [broadcast, hcalls]
      exact List.mem_map.mpr ⟨c, hc, rfl⟩

/-- Witness for C8 at a concrete input: of the three registered listeners,
listener 1 raises; it is removed, and all three are invoked with the pair. -/
theorem broadcast_isolates_raising_listener_witness :
    (broadcast (fun c => c == 1) ([0, 1, 2] : List Nat) 40 "build").callbacks =
      [0, 2] ∧
    (broadcast (fun c => c == 1) ([0, 1, 2] : List Nat) 40 "build").calls =
      [(0, 40, "build"), (1, 40, "build"), (2, 40, "build")] := by
  have h := broadcast_isolates_raising_listener (fun c => c == 1)
    ([0, 1, 2] : List Nat) 40 "build" (by decide)
  refine ⟨?_, ?_⟩
  · rw [h.2.1]
    rfl
  · rw [h.1]
    rfl

/-! ## C9 -/

/-- A token containing a dot is never accepted by the integer model, so the
code's `'.' not in value` guard before `int(value)` is redundant. -/
theorem pyIntParse_dot_none (s : String) (h : '.' ∈ s.toList) :
    pyIntParse s = none := by
  have hmem : '.' ∈ (splitSign s.toList).2 := by
    rcases hl : s.toList with _ | ⟨c, rest⟩
    · rw [hl] at h
      simp at h
    · rw [hl] at h
      simp only [splitSign]
      split_ifs with h1 h2
      · subst h1
        rcases List.mem_cons.mp h with h3 | h3
        · exact absurd h3 (by decide)
        · exact h3
      · subst h2
        rcases List.mem_cons.mp h with h3 | h3
        · exact absurd h3 (by decide)
        · exact h3
      · exact h
  have hall : (splitSign s.toList).2.all Char.isDigit = false := by
    cases hb : (splitSign s.toList).2.all Char.isDigit with
    | false => rfl
    | true =>
      have := List.all_eq_true.mp hb _ hmem
      exact absurd this (by decide)
  have hneg : ¬ ((splitSign s.toList).2 ≠ [] ∧
      (splitSign s.toList).2.all Char.isDigit = true) := by
    rintro ⟨h1, h2⟩
    rw [hall] at h2
    exact Bool.false_ne_true h2
  simp only [pyIntParse]
  rw [if_neg hneg]

/-- Values stored in an association list after a `setAssoc` come from the
old list or are the new value. -/
theorem mem_snd_setAssoc {α : Type} (m : List (String × α)) (k : String)
    (v w : α) (hw : w ∈ (setAssoc m k v).map (fun p => p.2)) :
    w ∈ m.map (fun p => p.2) ∨ w = v := by
  unfold setAssoc at hw
  split at hw
  · rw [List.map_map] at hw
    rcases List.mem_map.mp hw with ⟨p, hp, he⟩
    by_cases hk : p.1 == k
    · right
      simp only [Function.comp_apply, if_pos hk] at he
      exact he.symm
    · left
      simp only [Function.comp_apply, if_neg hk] at he
      exact List.mem_map.mpr ⟨p, hp, he⟩
  · rw [List.map_append] at hw
    rcases List.mem_append.mp hw with h | h
    · left
      exact h
    · right
      simpa using h

/-- The values of an entry found by lookup are values of the dictionary. -/
theorem entryValues_lookup_sub (d : ParamDict) (k : String) (e : ParamEntry)
    (h : lookupAssoc d k = some e) : ∀ u ∈ entryValues e, u ∈ dictValues d := by
  intro u hu
  unfold lookupAssoc at h
  cases hf : d.find? (fun p => p.1 == k) with
  | none =>
    rw [hf] at h
    cases h
  | some p =>
    rw [hf] at h
    simp only [Option.map_some', Option.some.injEq] at h
    have hp := List.mem_of_find?_eq_some hf
    subst h
    exact List.mem_flatMap.mpr ⟨p, hp, hu⟩

/-- Values of the dictionary after one parse step come from the old
dictionary or are the converted value of the consumed pair. -/
theorem parseStep_values (acc acc1 : ParamDict) (kv : String × String)
    (hstep : parseStep (some acc) kv = some acc1) :
    ∀ u ∈ dictValues acc1,
      u ∈ dictValues acc ∨ u = convert_query_param_type kv.2 := by
  intro u hu
  simp only [parseStep] at hstep
  by_cases hdot : '.' ∈ kv.1.toList
  · rw [if_pos hdot] at hstep
    set pn := splitFirstDot kv.1 with hpn
    set result1 : ParamDict :=
      if acc.any (fun p => p.1 == pn.1) then acc
      else acc ++ [(pn.1, ParamEntry.group [])] with hres1
    have hres1Values : ∀ w ∈ dictValues result1, w ∈ dictValues acc := by
      intro w hw
      rw [hres1] at hw
      split at hw
      · exact hw
      · simp only [dictValues, List.flatMap_append] at hw
        rcases List.mem_append.mp hw with h1 | h1
        · exact h1
        · simp [entryValues] at h1
    cases hlk : lookupAssoc result1 pn.1 with
    | none =>
      rw [hlk] at hstep
      cases hstep
    | some pe =>
      rw [hlk] at hstep
      cases pe with
      | flat v =>
        cases hstep
      | group m =>
        simp only [Option.some.injEq] at hstep
        subst hstep
        rcases List.mem_flatMap.mp hu with ⟨p, hp, hup⟩
        have hsnd : p.2 ∈ (setAssoc result1 pn.1
            (ParamEntry.group (setAssoc m pn.2 (convert_query_param_type kv.2)))).map
              (fun q => q.2) := List.mem_map.mpr ⟨p, hp, rfl⟩
        rcases mem_snd_setAssoc _ _ _ _ hsnd with h1 | h1
        · rcases List.mem_map.mp h1 with ⟨p0, hp0, he0⟩
          left
          apply hres1Values
          exact List.mem_flatMap.mpr ⟨p0, hp0, he0 ▸ hup⟩
        · rw [h1] at hup
          simp only [entryValues] at hup
          rcases mem_snd_setAssoc _ _ _ _ hup with h2 | h2
          · left
            apply hres1Values
            exact entryValues_lookup_sub result1 pn.1 (ParamEntry.group m) hlk u h2
          · right
            exact h2
  · rw [if_neg hdot] at hstep
    simp only [Option.some.injEq] at hstep
    subst hstep
    rcases List.mem_flatMap.mp hu with ⟨p, hp, hup⟩
    have hsnd : p.2 ∈ (setAssoc acc kv.1
        (ParamEntry.flat (convert_query_param_type kv.2))).map (fun q => q.2) :=
      List.mem_map.mpr ⟨p, hp, rfl⟩
    rcases mem_snd_setAssoc _ _ _ _ hsnd with h1 | h1
    · rcases List.mem_map.mp h1 with ⟨p0, hp0, he0⟩
      left
      exact List.mem_flatMap.mpr ⟨p0, hp0, he0 ▸ hup⟩
    · rw [h1] at hup
      simp only [entryValues, List.mem_singleton] at hup
      right
      exact hup

/-- Folding the parse step from a failed state stays failed. -/
theorem foldl_parseStep_none (l : List (String × String)) :
    l.foldl parseStep none = none := by
  induction l with
  | nil => rfl
  | cons kv rest ih => simpa [parseStep] using ih

/-- Every value of a successfully parsed dictionary comes from an initial
accumulator value or is the conversion of one of the consumed pairs. -/
theorem parse_fold_values (qp : List (String × String)) :
    ∀ (acc d : ParamDict), qp.foldl parseStep (some acc) = some d →
      ∀ u ∈ dictValues d, u ∈ dictValues acc ∨
        ∃ kv ∈ qp, u = convert_query_param_type kv.2 := by
  induction qp with
  | nil =>
    intro acc d h u hu
    left
    cases h
    exact hu
  | cons kv rest ih =>
    intro acc d h u hu
    rw [List.foldl_cons] at h
    cases hstep : parseStep (some acc) kv with
    | none =>
      rw [hstep, foldl_parseStep_none] at h
      cases h
    | some acc1 =>
      rw [hstep] at h
      rcases ih acc1 d h u hu with h1 | h1
      · rcases parseStep_values acc acc1 kv hstep u h1 with h2 | h2
        · left
          exact h2
        · right
          exact ⟨kv, List.mem_cons_self kv rest, h2⟩
      · rcases h1 with ⟨kv2, hm, he⟩
        right
        exact ⟨kv2, List.mem_cons_of_mem kv hm, he⟩

/-- C9: the coercion maps `true`/`false` tokens to booleans, otherwise
integer-parseable tokens to that integer, otherwise float-parseable tokens
to that float, otherwise keeps the string (the code function equals the
cascade exactly as the specification words it, the code's extra
`'.' not in value` guard being redundant); and the canonicalization applies
this coercion to each key's value: every value stored by
`parse_prefixed_parameters` is the coercion of one of the supplied query
values. -/
theorem query_param_coercion_matches_spec :
    (∀ value : String, convert_query_param_type value = coerceSpec value) ∧
    (∀ (qp : List (String × String)) (d : ParamDict),
      parse_prefixed_parameters qp = some d →
      ∀ u ∈ dictValues d, ∃ kv ∈ qp, u = convert_query_param_type kv.2) := by
  constructor
  · intro value
    unfold convert_query_param_type coerceSpec
    by_cases hb : strLower value = "true" ∨ strLower value = "false"
    · rw [if_pos hb, if_pos hb]
    · rw [if_neg hb, if_neg hb]
      by_cases hd : '.' ∈ value.toList
      · rw [if_pos hd, pyIntParse_dot_none value hd]
      · rw [if_neg hd]
  · intro qp d h u hu
    rcases parse_fold_values qp [] d h u hu with h1 | h1
    · simp [dictValues] at h1
    · exact h1

/-- Witness for C9 at concrete inputs: the code coercion agrees with the
spec cascade on a boolean token and a float token, and a dotted key parsed
through the canonicalization stores the coercion of its value. -/
theorem query_param_coercion_matches_spec_witness :
    convert_query_param_type "true" = coerceSpec "true" ∧
    convert_query_param_type "0.2" = coerceSpec "0.2" ∧
    (∀ u ∈ dictValues [("magnafpm", ParamEntry.group
        [("NumberMagnet", convert_query_param_type "12")])],
      ∃ kv ∈ [(("magnafpm.NumberMagnet", "12") : String × String)],
        u = convert_query_param_type kv.2) :=
  ⟨query_param_coercion_matches_spec.1 "true",
   query_param_coercion_matches_spec.1 "0.2",
   query_param_coercion_matches_spec.2 [("magnafpm.NumberMagnet", "12")]
     [("magnafpm", ParamEntry.group
        [("NumberMagnet", convert_query_param_type "12")])] (by rfl)⟩

/-! ## C4 -/

/-- C4: in every preemption with a current entry `A`, the preempt path fires
`A`'s done signal exactly once, and only after the lock has been released
and after the successor entry has been installed as the current entry: at
the moment of the firing the lock is no longer held and the successor is
installed. The successor's identity is fresh, so a waiter parked on `A`
that re-runs the wake-up check against the state left by the path observes
the identity mismatch and raises Cancelled, its wake-up being guaranteed
because `A`'s done event has been set. -/
theorem preemption_fires_old_done_after_release_and_install
    (s : MState) (key : Nat) (A : CacheEntry)
    (hA : s.centry = some A) (hfresh : A.eid < s.nextId) :
    ∃ pre post,
      preemptActs s key = pre ++ PreemptAct.fireOldSignal A.eid :: post ∧
      (∀ e, PreemptAct.fireOldSignal e ∉ pre) ∧
      (∀ e, PreemptAct.fireOldSignal e ∉ post) ∧
      PreemptAct.installEntry (freshEntry s key) ∈ pre ∧
      PreemptAct.release ∈ pre ∧
      (applyActs s pre).locked = false ∧
      (applyActs s pre).centry = some (freshEntry s key) ∧
      (freshEntry s key).eid ≠ A.eid ∧
      joinWake (applyActs s (preemptActs s key)).centry A.eid = .cancelled ∧
      A.eid ∈ (applyActs s (preemptActs s key)).eventsSet := by
  have hne : (freshEntry s key).eid ≠ A.eid := by
    simp only [freshEntry]
    exact fun h => absurd h.symm (Nat.ne_of_lt hfresh)
  have hacts : preemptActs s key =
      [PreemptAct.acquire, PreemptAct.setCancel A.eid,
       PreemptAct.installEntry (freshEntry s key), PreemptAct.release,
       PreemptAct.fireOldSignal A.eid,
       PreemptAct.dispatchWorker (freshEntry s key).eid] := by
    simp [preemptActs, hA]
  refine ⟨[PreemptAct.acquire, PreemptAct.setCancel A.eid,
      PreemptAct.installEntry (freshEntry s key), PreemptAct.release],
    [PreemptAct.dispatchWorker (freshEntry s key).eid],
    by simpa using hacts, ?_, ?_, ?_, ?_, ?_, ?_, hne, ?_, ?_⟩
  · intro e
    simp
  · intro e
    simp
  · simp
  · simp
  · simp [applyActs, applyAct]
  · simp [applyActs, applyAct]
  · rw [hacts]
    simp only [applyActs, List.foldl_cons, List.foldl_nil, applyAct]
    simp [joinWake, hne]
  · rw [hacts]
    simp only [applyActs, List.foldl_cons, List.foldl_nil, applyAct]
    simp

/-- Witness for C4 at a concrete input: key 1 (entry identity 0) preempted
by key 2; the old done signal is set and the wake-up check against the
final state cancels. -/
theorem preemption_fires_old_done_witness :
    joinWake (applyActs
        ⟨false, some 1, some ⟨0, 1, .loading, none, none, 0, false⟩, [], [], 1⟩
        (preemptActs
          ⟨false, some 1, some ⟨0, 1, .loading, none, none, 0, false⟩, [], [], 1⟩
          2)).centry 0 = .cancelled ∧
    0 ∈ (applyActs
        ⟨false, some 1, some ⟨0, 1, .loading, none, none, 0, false⟩, [], [], 1⟩
        (preemptActs
          ⟨false, some 1, some ⟨0, 1, .loading, none, none, 0, false⟩, [], [], 1⟩
          2)).eventsSet := by
  obtain ⟨pre, post, h⟩ := preemption_fires_old_done_after_release_and_install
    ⟨false, some 1, some ⟨0, 1, .loading, none, none, 0, false⟩, [], [], 1⟩
    2 ⟨0, 1, .loading, none, none, 0, false⟩ rfl (by decide)
  exact ⟨h.2.2.2.2.2.2.2.2.1, h.2.2.2.2.2.2.2.2.2⟩


/-! ## C3 -/

/-- Finishing a worker never increases the number of in-flight workers. -/
theorem runningCount_finishWorker_le (ws : List WorkerRec) (eid : Nat) :
    ((finishWorker ws eid).filter (fun w => w.running)).length ≤
      (ws.filter (fun w => w.running)).length := by
  induction ws with
  | nil => exact Nat.le_refl 0
  | cons w rest ih =>
    simp only [finishWorker, List.map_cons, List.filter_cons]
    by_cases hw : w.eid = eid
    · rw [if_pos hw]
      have hhead : ({ w with running := false } : WorkerRec).running = false := rfl
      rw [if_neg (by rw [hhead]; exact Bool.false_ne_true)]
      by_cases hr : w.running = true
      · rw [if_pos hr]
        exact Nat.le_succ_of_le ih
      · rw [if_neg hr]
        exact ih
    · rw [if_neg hw]
      by_cases hr : w.running = true
      · rw [if_pos hr, if_pos hr]
        simp only [List.length_cons]
        exact Nat.succ_le_succ ih
      · rw [if_neg hr, if_neg hr]
        exact ih

/-- The per-fingerprint count of in-flight workers is bounded by the global
count. -/
theorem filter_running_key_le (ws : List WorkerRec) (k : Nat) :
    (ws.filter (fun w => w.running && w.key == k)).length ≤
      (ws.filter (fun w => w.running)).length := by
  induction ws with
  | nil => exact Nat.le_refl 0
  | cons w rest ih =>
    simp only [List.filter_cons]
    by_cases h1 : (w.running && w.key == k) = true
    · have h2 : w.running = true := by
        have h3 := h1
        simp only [Bool.and_eq_true] at h3
        exact h3.1
      rw [if_pos h1, if_pos h2]
      simp only [List.length_cons]
      exact Nat.succ_le_succ ih
    · rw [if_neg h1]
      by_cases h2 : w.running = true
      · rw [if_pos h2]
        exact Nat.le_succ_of_le ih
      · rw [if_neg h2]
        exact ih

/-- Invariant: at every reachable state, at most one worker execution is in
flight. -/
theorem reachable_runningCount_le_one (s : CacheSys)
    (hr : CacheReachable s) : runningCount s ≤ 1 := by
  induction hr with
  | init s hinit =>
    simp [runningCount, hinit.2.2.2.1]
  | step s a s2 hr hstep ih =>
    cases hstep with
    | hitComplete i k E ht hk he hst => simpa [runningCount] using ih
    | hitError i k E ht hk he hst => simpa [runningCount] using ih
    | join i k E ht hk he hst => simpa [runningCount] using ih
    | preemptCancel i k E ht hk he hnc => simpa [runningCount] using ih
    | install i k ht hmiss hwait =>
      have hnil : s.workers.filter (fun w => w.running) = [] :=
        List.filter_eq_nil_iff.mpr (by
          intro w hw
          simp [hwait w hw])
      simp [runningCount, List.filter_append, hnil]
    | wake i k eid ht hf => simpa [runningCount] using ih
    | workComplete i k eid r E ht he =>
      simp only [runningCount] at ih ⊢
      exact le_trans (runningCount_finishWorker_le s.workers eid) ih
    | workError i k eid e E ht he =>
      simp only [runningCount] at ih ⊢
      exact le_trans (runningCount_finishWorker_le s.workers eid) ih
    | workCancelled i k eid E ht he hcr =>
      simp only [runningCount] at ih ⊢
      exact le_trans (runningCount_finishWorker_le s.workers eid) ih

/-- C3: at every reachable state the cache holds at most one entry, at most
one worker execution is in flight globally, hence at most one per
fingerprint; and a submit call that finds the current entry installed for
its own key can never install a new entry: every step it can take is the
complete fast path, the error fast path, or joining the in-flight entry,
none of which starts a worker. -/
theorem cache_single_entry_and_singleflight
    (s : CacheSys) (hr : CacheReachable s) :
    entryCount s ≤ 1 ∧
    runningCount s ≤ 1 ∧
    (∀ k : Nat,
      (s.workers.filter (fun w => w.running && w.key == k)).length ≤ 1) ∧
    (∀ (i k : Nat) (E : CacheEntry),
      s.threads.get? i = some ⟨k, .ready⟩ → s.ckey = some k →
      s.centry = some E →
      (∀ s2, ¬ SubmitStep s (.install i) s2) ∧
      (∀ (a : SubmitAct) (s2 : CacheSys), SubmitStep s a s2 → actThread a = i →
        (a = .hitComplete i ∨ a = .hitError i ∨ a = .join i) ∧
        s2.workers = s.workers)) := by
  refine ⟨?_, reachable_runningCount_le_one s hr, ?_, ?_⟩
  · cases h : s.centry <;> simp [entryCount, h]
  · intro k
    exact le_trans (filter_running_key_le s.workers k)
      (reachable_runningCount_le_one s hr)
  · intro i k E ht hk he
    constructor
    · intro s2 hstep
      cases hstep with
      | install i0 k0 ht0 hmiss hwait =>
        rw [ht] at ht0
        have hk0 : k0 = k := by
          cases ht0
          rfl
        subst hk0
        rcases hmiss with h1 | h1
        · exact h1 hk
        · rw [he] at h1
          cases h1
    · intro a s2 hstep hact
      cases hstep with
      | hitComplete i0 k0 E0 ht0 hk0 he0 hst0 =>
        simp only [actThread] at hact
        subst hact
        exact ⟨Or.inl rfl, rfl⟩
      | hitError i0 k0 E0 ht0 hk0 he0 hst0 =>
        simp only [actThread] at hact
        subst hact
        exact ⟨Or.inr (Or.inl rfl), rfl⟩
      | join i0 k0 E0 ht0 hk0 he0 hst0 =>
        simp only [actThread] at hact
        subst hact
        exact ⟨Or.inr (Or.inr rfl), rfl⟩
      | preemptCancel i0 k0 E0 ht0 hk0 he0 hnc0 =>
        simp only [actThread] at hact
        subst hact
        rw [ht] at ht0
        have hk0eq : k0 = k := by
          cases ht0
          rfl
        subst hk0eq
        exact absurd hk hk0
      | install i0 k0 ht0 hmiss hwait =>
        simp only [actThread] at hact
        subst hact
        rw [ht] at ht0
        have hk0eq : k0 = k := by
          cases ht0
          rfl
        subst hk0eq
        rcases hmiss with h1 | h1
        · exact absurd hk h1
        · rw [he] at h1
          cases h1
      | wake i0 k0 eid ht0 hf =>
        simp only [actThread] at hact
        subst hact
        rw [ht] at ht0
        cases ht0
      | workComplete i0 k0 eid r E0 ht0 he0 =>
        simp only [actThread] at hact
        subst hact
        rw [ht] at ht0
        cases ht0
      | workError i0 k0 eid e E0 ht0 he0 =>
        simp only [actThread] at hact
        subst hact
        rw [ht] at ht0
        cases ht0
      | workCancelled i0 k0 eid E0 ht0 he0 hcr0 =>
        simp only [actThread] at hact
        subst hact
        rw [ht] at ht0
        cases ht0

/-- Witness for C3 at a concrete input: after the first submit for key 5
installed and started its worker, at most one worker is in flight and the
second submit for the same key 5 cannot install a second entry. -/
theorem cache_single_entry_and_singleflight_witness :
    runningCount sysAfterInstall ≤ 1 ∧
    (∀ s2, ¬ SubmitStep sysAfterInstall (.install 1) s2) := by
  have hstep : SubmitStep sysBeforeInstall (.install 0) sysAfterInstall :=
    SubmitStep.install sysBeforeInstall 0 5 rfl (Or.inr rfl)
      (fun w hw => absurd hw (List.not_mem_nil w))
  have hreach : CacheReachable sysAfterInstall :=
    CacheReachable.step sysBeforeInstall (.install 0) sysAfterInstall
      (CacheReachable.init sysBeforeInstall
        ⟨rfl, rfl, rfl, rfl, rfl, by decide⟩)
      hstep
  have h := cache_single_entry_and_singleflight sysAfterInstall hreach
  exact ⟨h.2.1, (h.2.2.2 1 5 (newEntry 0 5) rfl rfl rfl).1⟩

/-! ## C5 -/

/-- Setting an occupied position makes it hold the new element. -/
theorem get?_set_self {α : Type} :
    ∀ (l : List α) (i : Nat) (x y : α), l.get? i = some y →
      (l.set i x).get? i = some x := by
  intro l
  induction l with
  | nil =>
    intro i x y h
    simp at h
  | cons a rest ih =>
    intro i x y h
    cases i with
    | zero => rfl
    | succ n => exact ih n x y h

/-- A worker still in flight after `finishWorker` was already in the list. -/
theorem finishWorker_running_mem (ws : List WorkerRec) (eid : Nat) :
    ∀ w ∈ finishWorker ws eid, w.running = true → w ∈ ws := by
  intro w hw hr
  rcases List.mem_map.mp hw with ⟨w0, hw0, he⟩
  by_cases h : w0.eid = eid
  · rw [if_pos h] at he
    rw [← he] at hr
    cases hr
  · rw [if_neg h] at he
    rw [← he]
    exact hw0

/-- A one-shot event is set after firing it. -/
theorem mem_fireEvent_self (l : List Nat) (e : Nat) : e ∈ fireEvent l e := by
  unfold fireEvent
  by_cases h : e ∈ l
  · rw [if_pos h]
    exact h
  · rw [if_neg h]
    exact List.mem_append.mpr (Or.inr (List.mem_singleton.mpr rfl))

/-- C5: when the worker raises, the failure lock section records the error
once on the current entry (status ERROR, same identity, key and
broadcaster), fires the entry's done event, finishes the worker without
starting another, and makes that submit call raise the worker error; while
the errored entry remains current, every submit call parked on it and woken
can only take the wake step, which raises the recorded error, and every
later submit call for the same key can only take the error fast path, which
raises the recorded error and starts no worker. -/
theorem worker_error_cached_and_surfaced :
    (∀ (s s2 : CacheSys) (i e : Nat), SubmitStep s (.workError i e) s2 →
      ∃ (k eid : Nat) (E : CacheEntry),
        s.threads.get? i = some ⟨k, .working eid⟩ ∧
        s.centry = some E ∧
        s2.centry = some { E with status := .error, err := some e } ∧
        E.eid ∈ s2.fired ∧
        s2.threads.get? i = some ⟨k, .finished (.workerError (some e))⟩ ∧
        (∀ w ∈ s2.workers, w.running = true → w ∈ s.workers) ∧
        s2.workers.length = s.workers.length) ∧
    (∀ (t t2 : CacheSys) (a : SubmitAct) (j : Nat) (E2 : CacheEntry),
      t.centry = some E2 → E2.status = .error → t.ckey = some E2.key →
      t.threads.get? j = some ⟨E2.key, .ready⟩ →
      SubmitStep t a t2 → actThread a = j →
      a = .hitError j ∧
      t2.threads.get? j = some ⟨E2.key, .finished (.workerError E2.err)⟩ ∧
      t2.workers = t.workers) ∧
    (∀ (t t2 : CacheSys) (a : SubmitAct) (j k2 : Nat) (E2 : CacheEntry),
      t.centry = some E2 → E2.status = .error →
      t.threads.get? j = some ⟨k2, .parked E2.eid⟩ →
      SubmitStep t a t2 → actThread a = j →
      a = .wake j ∧
      t2.threads.get? j = some ⟨k2, .finished (.workerError E2.err)⟩) := by
  refine ⟨?_, ?_, ?_⟩
  · intro s s2 i e hstep
    cases hstep with
    | workError i0 k0 eid0 e0 E0 ht0 he0 =>
      refine ⟨k0, eid0, E0, ht0, he0, rfl, mem_fireEvent_self s.fired E0.eid,
        get?_set_self s.threads i _ _ ht0,
        finishWorker_running_mem s.workers eid0, List.length_map _ _⟩
  · intro t t2 a j E2 hce hst hck ht hstep hact
    cases hstep with
    | hitComplete i0 k0 E0 ht0 hk0 he0 hst0 =>
      simp only [actThread] at hact
      subst hact
      rw [ht] at ht0
      cases ht0
      rw [hce] at he0
      cases he0
      rw [hst] at hst0
      cases hst0
    | hitError i0 k0 E0 ht0 hk0 he0 hst0 =>
      simp only [actThread] at hact
      subst hact
      rw [ht] at ht0
      cases ht0
      rw [hce] at he0
      cases he0
      refine ⟨rfl, ?_, rfl⟩
      exact get?_set_self t.threads _ _ _ ht
    | join i0 k0 E0 ht0 hk0 he0 hst0 =>
      simp only [actThread] at hact
      subst hact
      rw [ht] at ht0
      cases ht0
      rw [hce] at he0
      cases he0
      rw [hst] at hst0
      cases hst0
    | preemptCancel i0 k0 E0 ht0 hk0 he0 hnc0 =>
      simp only [actThread] at hact
      subst hact
      rw [ht] at ht0
      cases ht0
      exact absurd hck hk0
    | install i0 k0 ht0 hmiss hwait =>
      simp only [actThread] at hact
      subst hact
      rw [ht] at ht0
      cases ht0
      rcases hmiss with h1 | h1
      · exact absurd hck h1
      · rw [hce] at h1
        cases h1
    | wake i0 k0 eid ht0 hf =>
      simp only [actThread] at hact
      subst hact
      rw [ht] at ht0
      cases ht0
    | workComplete i0 k0 eid r E0 ht0 he0 =>
      simp only [actThread] at hact
      subst hact
      rw [ht] at ht0
      cases ht0
    | workError i0 k0 eid e E0 ht0 he0 =>
      simp only [actThread] at hact
      subst hact
      rw [ht] at ht0
      cases ht0
    | workCancelled i0 k0 eid E0 ht0 he0 hcr0 =>
      simp only [actThread] at hact
      subst hact
      rw [ht] at ht0
      cases ht0
  · intro t t2 a j k2 E2 hce hst ht hstep hact
    cases hstep with
    | hitComplete i0 k0 E0 ht0 hk0 he0 hst0 =>
      simp only [actThread] at hact
      subst hact
      rw [ht] at ht0
      cases ht0
    | hitError i0 k0 E0 ht0 hk0 he0 hst0 =>
      simp only [actThread] at hact
      subst hact
      rw [ht] at ht0
      cases ht0
    | join i0 k0 E0 ht0 hk0 he0 hst0 =>
      simp only [actThread] at hact
      subst hact
      rw [ht] at ht0
      cases ht0
    | preemptCancel i0 k0 E0 ht0 hk0 he0 hnc0 =>
      simp only [actThread] at hact
      subst hact
      rw [ht] at ht0
      cases ht0
    | install i0 k0 ht0 hmiss hwait =>
      simp only [actThread] at hact
      subst hact
      rw [ht] at ht0
      cases ht0
    | wake i0 k0 eid ht0 hf =>
      simp only [actThread] at hact
      subst hact
      rw [ht] at ht0
      cases ht0
      refine ⟨rfl, ?_⟩
      have hjw : joinWake t.centry E2.eid = .workerError E2.err := by
        rw [hce]
        simp [joinWake, hst]
      rw [hjw] at *
      exact get?_set_self t.threads _ _ _ ht
    | workComplete i0 k0 eid r E0 ht0 he0 =>
      simp only [actThread] at hact
      subst hact
      rw [ht] at ht0
      cases ht0
    | workError i0 k0 eid e E0 ht0 he0 =>
      simp only [actThread] at hact
      subst hact
      rw [ht] at ht0
      cases ht0
    | workCancelled i0 k0 eid E0 ht0 he0 hcr0 =>
      simp only [actThread] at hact
      subst hact
      rw [ht] at ht0
      cases ht0

/-- Witness for C5 at a concrete input: the worker for key 7 raises error 5;
the entry is recorded ERROR with error 5 and its event fired, no worker is
added; the parked waiter and a later same-key submit call both end with the
worker-error outcome carrying 5. -/
theorem worker_error_cached_and_surfaced_witness :
    (∃ (k eid : Nat) (E : CacheEntry),
      sysWorkerRaises.threads.get? 0 = some ⟨k, .working eid⟩ ∧
      sysWorkerRaises.centry = some E ∧
      sysWorkerRaised.centry = some { E with status := .error, err := some 5 } ∧
      E.eid ∈ sysWorkerRaised.fired ∧
      sysWorkerRaised.threads.get? 0 =
        some ⟨k, .finished (.workerError (some 5))⟩ ∧
      (∀ w ∈ sysWorkerRaised.workers, w.running = true →
        w ∈ sysWorkerRaises.workers) ∧
      sysWorkerRaised.workers.length = sysWorkerRaises.workers.length) ∧
    sysErrHitTarget.threads.get? 2 =
      some ⟨7, .finished (.workerError (some 5))⟩ ∧
    sysErrWakeTarget.threads.get? 1 =
      some ⟨7, .finished (.workerError (some 5))⟩ := by
  refine ⟨?_, ?_, ?_⟩
  · exact worker_error_cached_and_surfaced.1 sysWorkerRaises sysWorkerRaised 0 5
      (SubmitStep.workError sysWorkerRaises 0 7 0 5 (newEntry 0 7) rfl rfl)
  · exact (worker_error_cached_and_surfaced.2.1 sysErrCurrent sysErrHitTarget
      (.hitError 2) 2 errEntry rfl rfl rfl rfl
      (SubmitStep.hitError sysErrCurrent 2 7 errEntry rfl rfl rfl rfl) rfl).2.1
  · exact (worker_error_cached_and_surfaced.2.2 sysErrCurrent sysErrWakeTarget
      (.wake 1) 1 7 errEntry rfl rfl rfl
      (SubmitStep.wake sysErrCurrent 1 7 0 rfl (by decide)) rfl).2
